import Mathlib

/-!
# Verification of the keyboard statistics collector

A shallow embedding of `src/keyboard_stats.py` (an evdev-based keyboard
press counter) together with proofs of the behavioural properties stated
in the specification.

The Python program keeps a `collections.Counter` mapping key identities
(strings) to press counts, updates it from device key-down events, and
persists it to a CSV file.  We model:

* the counter table (`CounterTable`) with `Counter` semantics
  (missing key reads as 0, assignment inserts or overwrites);
* the aggregator `update_key_counter`;
* the monitor loop's per-event filtering (`processEvent`) and the
  structured select/read loop (`runMonitor`);
* the device classifier `is_keyboard`;
* the persistence store `save_data` / `load_existing_data` over an
  abstract file system, including the CSV encoding;
* the top-level exception handling of `__main__` and the periodic save
  thread `periodic_save`.
-/

namespace KeyboardStats

/-! ## Counter table

`key_counter = Counter()` in the source: a mapping from string key
identities to integer counts.  We model it as an association list kept in
insertion order (as `Counter.items()` iterates).  A missing key reads
as 0 (`Counter.__missing__`); assignment overwrites the existing entry
or appends a new one. -/

/-- In-memory counter table: association list from key identity to count,
in insertion order, modelling `collections.Counter`. -/
abbrev CounterTable := List (String × Int)

/-- Read a key's count; 0 when the key is absent (`Counter` semantics). -/
def ctGet (t : CounterTable) (k : String) : Int :=
  match t with
  | [] => 0
  | p :: rest => if p.1 = k then p.2 else ctGet rest k

/-- Assign a key's count: overwrite the first entry with that key, or
append a fresh entry (`Counter.__setitem__`). -/
def ctSet (t : CounterTable) (k : String) (v : Int) : CounterTable :=
  match t with
  | [] => [(k, v)]
  | p :: rest => if p.1 = k then (k, v) :: rest else p :: ctSet rest k v

/-- Increment a key's count by one: `key_counter[x] += 1` in the source. -/
def ctInc (t : CounterTable) (k : String) : CounterTable :=
  ctSet t k (ctGet t k + 1)

theorem ctGet_ctSet (t : CounterTable) (k k' : String) (v : Int) :
    ctGet (ctSet t k v) k' = if k = k' then v else ctGet t k' := by
  induction t with
  | nil => by_cases h : k = k' <;> simp [ctSet, ctGet, h]
  | cons p rest ih =>
    by_cases hp : p.1 = k
    · by_cases h : k = k'
      · simp [ctSet, ctGet, hp, h]
      · have hne : ¬ p.1 = k' := fun hc => h (hp.symm.trans hc)
        simp [ctSet, ctGet, hp, h, hne]
    · simp only [ctSet, hp, if_false]
      by_cases h : p.1 = k'
      · have : ¬ k = k' := fun he => hp (he ▸ h)
        simp [ctGet, h, this]
      · simp [ctGet, h, ih]

theorem ctGet_ctInc (t : CounterTable) (k k' : String) :
    ctGet (ctInc t k) k' = ctGet t k' + if k = k' then 1 else 0 := by
  unfold ctInc
  rw [ctGet_ctSet]
  by_cases h : k = k' <;> simp [h]

/-! ## Key codes and the aggregator

`categorize(event).keycode` is either a single key name string or a list
of them (composite events).  `update_key_counter` applies `str` to each
code and increments its count; we model the already-stringified codes. -/

/-- Keycode of a categorized key event: a single code or a list of codes
(composite events), each already rendered as the string `str(code)`. -/
inductive KeyCode where
  | single (code : String)
  | multi (codes : List String)
deriving DecidableEq, Repr

/-- Source `update_key_counter(keycode)`: for a list keycode, increment the
count of every code in the list; otherwise increment the single code. -/
def update_key_counter (keycode : KeyCode) (t : CounterTable) : CounterTable :=
  match keycode with
  | .multi codes => codes.foldl (fun acc c => ctInc acc c) t
  | .single code => ctInc t code

/-- Number of occurrences of key `k` in a list of codes. -/
def countOcc (k : String) (codes : List String) : Nat :=
  match codes with
  | [] => 0
  | c :: rest => (if c = k then 1 else 0) + countOcc k rest

theorem ctGet_foldl_ctInc (codes : List String) (t : CounterTable) (k : String) :
    ctGet (codes.foldl (fun acc c => ctInc acc c) t) k
      = ctGet t k + (countOcc k codes : Int) := by
  induction codes generalizing t with
  | nil => simp [countOcc]
  | cons c rest ih =>
    simp only [List.foldl_cons, countOcc]
    rw [ih, ctGet_ctInc]
    by_cases h : c = k
    · simp [h]; ring
    · simp [h]

/-- Effect of recording one keycode on an arbitrary identity. -/
def keycodeOcc (k : String) (keycode : KeyCode) : Nat :=
  match keycode with
  | .single code => if code = k then 1 else 0
  | .multi codes => countOcc k codes

theorem ctGet_update_key_counter (keycode : KeyCode) (t : CounterTable) (k : String) :
    ctGet (update_key_counter keycode t) k = ctGet t k + (keycodeOcc k keycode : Int) := by
  cases keycode with
  | single code =>
    simp only [update_key_counter, keycodeOcc, ctGet_ctInc]
    by_cases h : code = k <;> simp [h]
  | multi codes =>
    simp only [update_key_counter, keycodeOcc]
    exact ctGet_foldl_ctInc codes t k

/-! ## The monitor loop's event processing

In `main`, each event read from a device passes through:
`if event.type == ecodes.EV_KEY: key_event = categorize(event);
 if key_event.keystate == key_event.key_down: update_key_counter(...)`.
`ecodes.EV_KEY = 1`; the key states are `key_up = 0`, `key_down = 1`,
`key_hold = 2` (autorepeat). -/

def EV_KEY : Nat := 1
def key_up : Nat := 0
def key_down : Nat := 1
def key_hold : Nat := 2

/-- One decoded input event: its evdev type, its key state (the value the
`categorize` wrapper exposes as `keystate`), and its keycode. -/
structure RawEvent where
  etype : Nat
  keystate : Nat
  keycode : KeyCode
deriving DecidableEq, Repr

/-- Processing of one event by the body of the monitor loop in `main`:
only key events in the down state update the counter. -/
def processEvent (t : CounterTable) (e : RawEvent) : CounterTable :=
  if e.etype = EV_KEY then
    if e.keystate = key_down then update_key_counter e.keycode t else t
  else t

/-- Folding the monitor loop body over a (flattened) sequence of events. -/
def monitorFold (t : CounterTable) (evs : List RawEvent) : CounterTable :=
  match evs with
  | [] => t
  | e :: rest => monitorFold (processEvent t e) rest

/-- Number of down-transitions recorded for identity `k` in an event
sequence: occurrences of `k` in the keycodes of key-down key events. -/
def downCount (evs : List RawEvent) (k : String) : Nat :=
  match evs with
  | [] => 0
  | e :: rest =>
      (if e.etype = EV_KEY ∧ e.keystate = key_down then keycodeOcc k e.keycode else 0)
        + downCount rest k

theorem ctGet_processEvent (t : CounterTable) (e : RawEvent) (k : String) :
    ctGet (processEvent t e) k
      = ctGet t k
        + ((if e.etype = EV_KEY ∧ e.keystate = key_down then keycodeOcc k e.keycode else 0 : Nat) : Int) := by
  unfold processEvent
  by_cases ht : e.etype = EV_KEY
  · by_cases hs : e.keystate = key_down
    · simp [ht, hs, ctGet_update_key_counter]
    · simp [ht, hs]
  · simp [ht]

theorem ctGet_monitorFold (evs : List RawEvent) (t : CounterTable) (k : String) :
    ctGet (monitorFold t evs) k = ctGet t k + (downCount evs k : Int) := by
  induction evs generalizing t with
  | nil => simp [monitorFold, downCount]
  | cons e rest ih =>
    simp only [monitorFold, downCount]
    rw [ih, ctGet_processEvent]
    push_cast
    ring

/-- CLAIM C1.  For every identity and every sequence of device events
processed by the monitor loop, the final count for that identity equals
the count loaded at startup (0 if absent, by `ctGet`) plus the number of
key-down transitions recorded for that identity; up-transitions and
repeat/autorepeat events never change any count, so counts never
decrease, and each single-code increment raises exactly that one recorded
count by exactly 1 and leaves every other count unchanged. -/
theorem monitor_final_count (init : CounterTable) (evs : List RawEvent) (k : String) :
    ctGet (monitorFold init evs) k = ctGet init k + (downCount evs k : Int)
    ∧ ctGet init k ≤ ctGet (monitorFold init evs) k
    ∧ (∀ t : CounterTable, ∀ e : RawEvent,
        e.keystate = key_up ∨ e.keystate = key_hold → processEvent t e = t)
    ∧ (∀ t : CounterTable, ∀ c : String,
        ctGet (ctInc t c) c = ctGet t c + 1
        ∧ ∀ k' : String, k' ≠ c → ctGet (ctInc t c) k' = ctGet t k') := by
  refine ⟨ctGet_monitorFold evs init k, ?_, ?_, ?_⟩
  · rw [ctGet_monitorFold]
    have : (0 : Int) ≤ (downCount evs k : Int) := Int.ofNat_nonneg _
    omega
  · intro t e he
    unfold processEvent
    have : e.keystate ≠ key_down := by
      rcases he with h | h <;> rw [h] <;> simp [key_up, key_hold, key_down]
    by_cases ht : e.etype = EV_KEY <;> simp [ht, this]
  · intro t c
    constructor
    · rw [ctGet_ctInc]; simp
    · intro k' hk
      rw [ctGet_ctInc]
      simp [Ne.symm hk]

/-- Witness for C1: a concrete run.  Starting from a table where key "30"
was loaded with count 5, a down, an up and a hold event for "30" yield a
final count of 6 = 5 + 1 observed down-transition; the up event leaves
the table unchanged. -/
theorem monitor_final_count_witness :
    ctGet (monitorFold [("30", 5)]
        [⟨EV_KEY, key_down, .single "30"⟩,
         ⟨EV_KEY, key_up, .single "30"⟩,
         ⟨EV_KEY, key_hold, .single "30"⟩]) "30"
      = ctGet [("30", 5)] "30"
        + (downCount [(⟨EV_KEY, key_down, .single "30"⟩ : RawEvent),
            ⟨EV_KEY, key_up, .single "30"⟩, ⟨EV_KEY, key_hold, .single "30"⟩] "30" : Int)
    ∧ processEvent [("30", 6)] ⟨EV_KEY, key_up, .single "30"⟩ = [("30", 6)] := by
  have h := monitor_final_count [("30", 5)]
    [⟨EV_KEY, key_down, .single "30"⟩,
     ⟨EV_KEY, key_up, .single "30"⟩,
     ⟨EV_KEY, key_hold, .single "30"⟩] "30"
  exact ⟨h.1, h.2.2.1 [("30", 6)] ⟨EV_KEY, key_up, .single "30"⟩ (Or.inl rfl)⟩

/-- CLAIM C4.  Recording a composite key event whose keycode is a list of
codes increments the count of each code in the list by 1 (one increment
per contained occurrence), not a single shared increment; in particular a
single event carrying codes `["42", "56"]` increments both identity "42"
and identity "56" by 1 each. -/
theorem composite_event_per_code (t : CounterTable) (codes : List String) (k : String) :
    ctGet (update_key_counter (.multi codes) t) k = ctGet t k + (countOcc k codes : Int)
    ∧ ctGet (update_key_counter (.multi ["42", "56"]) t) "42" = ctGet t "42" + 1
    ∧ ctGet (update_key_counter (.multi ["42", "56"]) t) "56" = ctGet t "56" + 1 := by
  refine ⟨ctGet_update_key_counter (.multi codes) t k, ?_, ?_⟩
  · rw [ctGet_update_key_counter]; simp [keycodeOcc, countOcc]
  · rw [ctGet_update_key_counter]; simp [keycodeOcc, countOcc]

/-! ## Device classifier

Source `is_keyboard(device)`: the device name, lowercased, must contain
one of the substrings `keyboard`, `keybrd`, `keypad` (Python `in` on
strings is contiguous-substring containment), and the device's declared
`EV_KEY` capability list (`device.capabilities().get(EV_KEY, [])`) must
contain every code of the fixed `required_keys` set. -/

/-- Python `s.startswith(pat)` on character lists. -/
def isPrefixList (pat s : List Char) : Bool :=
  match pat, s with
  | [], _ => true
  | _ :: _, [] => false
  | p :: ps, c :: cs => p == c && isPrefixList ps cs

/-- Python `pat in s` on character lists: `pat` occurs contiguously in `s`. -/
def containsSub (pat s : List Char) : Bool :=
  match s with
  | [] => isPrefixList pat []
  | _ :: cs => isPrefixList pat s || containsSub pat cs

/-- Python `device.name.lower()` as a character list (the names involved
are ASCII, where `Char.toLower` agrees with `str.lower`). -/
def lowerStr (s : String) : List Char := s.data.map Char.toLower

/-- The fixed keyboard-indicating name substrings of `is_keyboard`. -/
def keyboard_names : List String := ["keyboard", "keybrd", "keypad"]

/-- The fixed reference capability set of `is_keyboard`, by evdev code:
KEY_Q..KEY_R, KEY_A..KEY_F, KEY_Z..KEY_V, KEY_1..KEY_3, KEY_SPACE,
KEY_ENTER, KEY_BACKSPACE, both shifts and both controls. -/
def required_keys : List Nat :=
  [16, 17, 18, 19,
   30, 31, 32, 33,
   44, 45, 46, 47,
   2, 3, 4,
   57, 28, 14,
   42, 54,
   29, 97]

/-- An enumerated input device: its declared name and its capability map
from evdev event type to the list of supported codes. -/
structure Device where
  name : String
  capabilities : List (Nat × List Nat)
deriving DecidableEq, Repr

/-- Python `dict.get(key, [])` on the capability map. -/
def capGet (caps : List (Nat × List Nat)) (k : Nat) : List Nat :=
  match caps.find? (fun p => p.1 == k) with
  | some p => p.2
  | none => []

/-- Source `is_keyboard(device)`: name-substring test first (early return
False), then the required-keys superset test on the `EV_KEY` capabilities. -/
def is_keyboard (d : Device) : Bool :=
  if !(keyboard_names.any (fun n => containsSub n.data (lowerStr d.name))) then
    false
  else
    required_keys.all (fun k => (capGet d.capabilities EV_KEY).contains k)

theorem isPrefixList_iff (pat s : List Char) :
    isPrefixList pat s = true ↔ pat <+: s := by
  induction pat generalizing s with
  | nil => simp [isPrefixList]
  | cons p ps ih =>
    cases s with
    | nil => simp [isPrefixList]
    | cons c cs =>
      simp only [isPrefixList, Bool.and_eq_true, beq_iff_eq, List.cons_prefix_cons, ih]

theorem containsSub_iff (pat s : List Char) :
    containsSub pat s = true ↔ pat <:+: s := by
  induction s with
  | nil =>
    simp only [containsSub, isPrefixList_iff, List.prefix_nil, List.infix_nil]
  | cons c cs ih =>
    simp only [containsSub, Bool.or_eq_true, isPrefixList_iff, ih,
      List.infix_cons_iff]

/-- CLAIM C3.  `is_keyboard` returns true iff the device name contains,
case-insensitively, one of the fixed keyboard-indicating substrings AND
its declared `EV_KEY` capability list is a superset of the fixed
reference key set; a device whose capability map has no `EV_KEY` entry
at all never qualifies, and a device named "Mouse" never qualifies
regardless of its capabilities. -/
theorem is_keyboard_characterization (d : Device) :
    (is_keyboard d = true ↔
      ((∃ n ∈ keyboard_names, n.data <:+: lowerStr d.name)
        ∧ ∀ k ∈ required_keys, k ∈ capGet d.capabilities EV_KEY))
    ∧ (d.capabilities.find? (fun p => p.1 == EV_KEY) = none → is_keyboard d = false)
    ∧ (∀ caps : List (Nat × List Nat), is_keyboard ⟨"Mouse", caps⟩ = false) := by
  refine ⟨?_, ?_, ?_⟩
  · unfold is_keyboard
    by_cases hname : keyboard_names.any (fun n => containsSub n.data (lowerStr d.name))
    · simp only [hname, Bool.not_true, Bool.false_eq_true, if_false,
        List.all_eq_true]
      constructor
      · intro h
        refine ⟨?_, fun k hk => List.elem_iff.mp (h k hk)⟩
        rcases List.any_eq_true.mp hname with ⟨n, hn, hc⟩
        exact ⟨n, hn, (containsSub_iff _ _).mp hc⟩
      · exact fun h k hk => List.elem_iff.mpr (h.2 k hk)
    · simp only [hname, Bool.not_false, if_true, Bool.false_eq_true, false_iff]
      intro h
      rcases h.1 with ⟨n, hn, hc⟩
      exact hname (List.any_eq_true.mpr ⟨n, hn, (containsSub_iff _ _).mpr hc⟩)
  · intro hfind
    unfold is_keyboard
    by_cases hname : keyboard_names.any (fun n => containsSub n.data (lowerStr d.name))
    · simp only [hname, Bool.not_true, Bool.false_eq_true, if_false]
      have hcap : capGet d.capabilities EV_KEY = [] := by
        unfold capGet
        rw [hfind]
      rw [hcap]
      simp [required_keys]
    · simp [hname]
  · intro caps
    have hname : keyboard_names.any (fun n => containsSub n.data (lowerStr "Mouse")) = false := by
      decide
    show (if !(keyboard_names.any (fun n => containsSub n.data (lowerStr "Mouse"))) then false
          else required_keys.all (fun k => (capGet caps EV_KEY).contains k)) = false
    rw [hname]
    simp

/-- Witness for C3: a device named "Generic Keyboard" exposing the full
reference capability set qualifies; a device whose capability map lacks
an `EV_KEY` entry does not; a device named "Mouse" with the full set does
not. -/
theorem is_keyboard_characterization_witness :
    is_keyboard ⟨"Generic Keyboard", [(EV_KEY, required_keys)]⟩ = true
    ∧ is_keyboard ⟨"Keyboard Backlight", []⟩ = false
    ∧ is_keyboard ⟨"Mouse", [(EV_KEY, required_keys)]⟩ = false := by
  refine ⟨?_, ?_, ?_⟩
  · exact (is_keyboard_characterization ⟨"Generic Keyboard", [(EV_KEY, required_keys)]⟩).1.mpr
      ⟨⟨"keyboard", by decide,
        (containsSub_iff "keyboard".data (lowerStr "Generic Keyboard")).mp (by decide)⟩,
       by decide⟩
  · exact (is_keyboard_characterization ⟨"Keyboard Backlight", []⟩).2.1 (by decide)
  · exact (is_keyboard_characterization ⟨"Mouse", [(EV_KEY, required_keys)]⟩).2.2
      [(EV_KEY, required_keys)]

/-! ## The structured monitor loop and read errors

`main` runs `while True: r, w, x = select.select(devices, [], []);
for fd in r: for event in devices[fd].read(): ...`.  The `devices` dict
is built once before the loop and never modified; an exception raised by
`devices[fd].read()` is not caught anywhere in `main`, so it propagates
out of the loop (and out of `main`).  We model a finite run script: each
round is the list of ready descriptors with the outcome of reading each
(a list of events, or a read error). -/

/-- Result of `devices[fd].read()` for one ready descriptor: the pending
events, or a raised read error (e.g. `OSError` when the device vanishes). -/
structure ReadOutcome where
  fd : Nat
  result : Except Unit (List RawEvent)
deriving Repr

/-- State of the monitor loop after a finite run script: still running
(script exhausted), or terminated by an uncaught exception from a read.
Both carry the counter table and the unchanged descriptor set. -/
inductive MonitorState where
  | running (t : CounterTable) (fds : List Nat)
  | raised (t : CounterTable) (fds : List Nat)
deriving Repr

def stateTable : MonitorState → CounterTable
  | .running t _ => t
  | .raised t _ => t

def stateFds : MonitorState → List Nat
  | .running _ fds => fds
  | .raised _ fds => fds

/-- One `for fd in r` round: read each ready descriptor in order and
process its events; a read error aborts the round (and the loop) at once,
leaving the table as accumulated so far. -/
def processRound (t : CounterTable) (round : List ReadOutcome) :
    Except CounterTable CounterTable :=
  match round with
  | [] => .ok t
  | r :: rest =>
    match r.result with
    | .error _ => .error t
    | .ok evs => processRound (monitorFold t evs) rest

/-- The `while True` loop of `main` over a finite run script.  The
descriptor set is fixed before the loop and never shrinks; any read error
escapes as an uncaught exception. -/
def runMonitor (t : CounterTable) (fds : List Nat) (script : List (List ReadOutcome)) :
    MonitorState :=
  match script with
  | [] => .running t fds
  | round :: rest =>
    match processRound t round with
    | .error t2 => .raised t2 fds
    | .ok t2 => runMonitor t2 fds rest

theorem stateFds_runMonitor (t : CounterTable) (fds : List Nat)
    (script : List (List ReadOutcome)) :
    stateFds (runMonitor t fds script) = fds := by
  induction script generalizing t with
  | nil => rfl
  | cons round rest ih =>
    simp only [runMonitor]
    cases processRound t round with
    | error t2 => rfl
    | ok t2 => exact ih t2

theorem processRound_ok_prefix (t : CounterTable) (pre : List (List RawEvent))
    (tail : List ReadOutcome) (fd : Nat) :
    processRound t ((pre.map (fun evs => ReadOutcome.mk fd (.ok evs))) ++ tail)
      = processRound (pre.foldl monitorFold t) tail := by
  induction pre generalizing t with
  | nil => rfl
  | cons evs rest ih =>
    simp only [List.map_cons, List.cons_append, processRound, List.foldl_cons]
    exact ih (monitorFold t evs)

/-- CLAIM C7, corrected.  The monitor loop never removes a device from
the set of descriptors being waited on, and a read error on any device is
not absorbed: it escapes the loop as an uncaught exception, terminating
the run with the descriptor set unchanged and every later round of the
script unprocessed — monitoring does not continue with the remaining
devices. -/
theorem read_error_propagates (t : CounterTable) (fds : List Nat)
    (script : List (List ReadOutcome)) (pre : List (List RawEvent))
    (okFd errFd : Nat) (tail : List ReadOutcome) (rest : List (List ReadOutcome)) :
    stateFds (runMonitor t fds script) = fds
    ∧ runMonitor t fds
        (((pre.map (fun evs => ReadOutcome.mk okFd (.ok evs)))
            ++ ReadOutcome.mk errFd (.error ()) :: tail) :: rest)
        = .raised (pre.foldl monitorFold t) fds := by
  refine ⟨stateFds_runMonitor t fds script, ?_⟩
  simp only [runMonitor, processRound_ok_prefix, processRound]

/-- Counterexample to C7 as stated.  Two monitored devices (descriptors 3
and 4); device 3 errors on read, after which an event for key "30" would
arrive on device 4.  The claim predicts device 3 is dropped and
monitoring continues, so "30" reaches count 1 with active set [4].  The
code instead terminates with the table still empty (count of "30" is 0)
and the descriptor set still [3, 4]; the round for device 4 is never
processed. -/
theorem read_error_propagates_counterexample :
    runMonitor [] [3, 4]
        [[⟨3, .error ()⟩], [⟨4, .ok [⟨EV_KEY, key_down, .single "30"⟩]⟩]]
      = .raised [] [3, 4]
    ∧ ctGet (stateTable (runMonitor [] [3, 4]
        [[⟨3, .error ()⟩], [⟨4, .ok [⟨EV_KEY, key_down, .single "30"⟩]⟩]])) "30" = 0 := by
  constructor
  · rfl
  · rfl

/-- Witness for C7 (corrected form): instantiated at an empty script and
at the two-device script of the counterexample. -/
theorem read_error_propagates_witness :
    stateFds (runMonitor [] [3, 4] []) = [3, 4]
    ∧ runMonitor [] [3, 4]
        [[⟨3, .ok [⟨EV_KEY, key_down, .single "30"⟩]⟩, ⟨4, .error ()⟩]]
      = .raised (monitorFold [] [⟨EV_KEY, key_down, .single "30"⟩]) [3, 4] := by
  have h := read_error_propagates [] [3, 4] []
    [[⟨EV_KEY, key_down, .single "30"⟩]] 3 4 [] []
  exact ⟨h.1, h.2⟩

/-! ## The periodic save thread

`periodic_save` loops forever: sleep, `save_data(csv_file)`, print a
confirmation.  There is no exception handling in the loop: if a save
raises (disk full, permission error), the exception escapes the thread
function and the daemon thread dies; the process itself continues (an
exception in a non-main thread only prints a traceback).  We model the
thread against a script of write outcomes (`true` = the write succeeded)
and record how many save attempts were made and whether the scheduler
thread is still alive afterwards. -/

/-- Run `periodic_save` against a script of write outcomes.  Returns
(number of save attempts actually made, whether the scheduler thread is
still alive after the script). -/
def periodic_save_run (outcomes : List Bool) : Nat × Bool :=
  match outcomes with
  | [] => (0, true)
  | ok :: rest =>
    if ok then
      ((periodic_save_run rest).1 + 1, (periodic_save_run rest).2)
    else
      (1, false)

/-- CLAIM C6, corrected.  While every write succeeds the scheduler keeps
saving once per interval, but the first write failure raises out of
`periodic_save` and kills the scheduler thread: the failing attempt is
the last one ever made and no later interval's save is attempted.  (The
monitoring process itself survives — the exception is confined to the
daemon thread — but periodic persistence stops for the rest of the run.) -/
theorem save_failure_kills_scheduler (pre rest : List Bool)
    (hpre : ∀ b ∈ pre, b = true) :
    periodic_save_run (pre ++ false :: rest) = (pre.length + 1, false)
    ∧ periodic_save_run pre = (pre.length, true) := by
  induction pre with
  | nil => exact ⟨rfl, rfl⟩
  | cons b bs ih =>
    have hb : b = true := hpre b (List.mem_cons_self b bs)
    have hbs : ∀ x ∈ bs, x = true := fun x hx => hpre x (List.mem_cons_of_mem b hx)
    have h := ih hbs
    subst hb
    constructor
    · simp [periodic_save_run, h.1]
    · simp [periodic_save_run, h.2]

/-- Witness for C6 (corrected form): one successful save, then a failed
write, then an interval that would have saved again: only 2 attempts are
made and the scheduler is dead. -/
theorem save_failure_kills_scheduler_witness :
    periodic_save_run ([true] ++ false :: [true]) = (2, false) := by
  exact (save_failure_kills_scheduler [true] [true] (by decide)).1

/-- Counterexample to C6 as stated.  With a script of two intervals where
the first write fails, the claim predicts the scheduler proceeds to the
next interval and attempts the second save (2 attempts, scheduler still
running); the code makes only the one failing attempt and the scheduler
thread is dead. -/
theorem save_failure_kills_scheduler_counterexample :
    periodic_save_run [false, true] = (1, false)
    ∧ (periodic_save_run [false, true]).1 ≠ 2 := by
  constructor
  · rfl
  · decide

/-! ## Top-level exception handling

The `__main__` block parses the CSV path, then runs `main` under
`try/except`: `KeyboardInterrupt` triggers a final `save_data` and two
messages; `PermissionError` (raised when opening a device without
sufficient privilege) prints the sudo hint.  Neither handler calls
`sys.exit`, so after a handled exception the script falls off the end
and the interpreter exits with status 0; an unhandled exception would
print a traceback and exit with status 1. -/

/-- How the call `main(args.csv_file)` ended. -/
inductive MainOutcome where
  | normal
  | keyboardInterrupt
  | permissionError
  | unhandledError
deriving DecidableEq, Repr

/-- Observable result of the whole script: messages printed by the
`__main__` block itself, the interpreter exit status, and whether the
final (shutdown) `save_data` ran. -/
structure ScriptResult where
  prints : List String
  exitCode : Nat
  finalSave : Bool
deriving DecidableEq, Repr

/-- The `try/except` of the `__main__` block.  `KeyboardInterrupt` and
`PermissionError` are handled (so the interpreter exits 0); any other
exception is unhandled (traceback on stderr, exit status 1). -/
def script_run (o : MainOutcome) : ScriptResult :=
  match o with
  | .normal => ⟨[], 0, false⟩
  | .keyboardInterrupt =>
      ⟨["Keyboard Interrupt detected. Saving data...", "Data saved. Exiting..."], 0, true⟩
  | .permissionError => ⟨["Permission denied. Try running the script with sudo."], 0, false⟩
  | .unhandledError => ⟨[], 1, false⟩

/-- Counterexample to C5 as stated.  When opening a device raises
`PermissionError`, the handler prints the actionable message but never
calls `sys.exit`, so the interpreter exits with status 0 — not the
non-zero exit code the claim requires. -/
theorem permission_error_exit_counterexample :
    ¬ ((script_run .permissionError).exitCode ≠ 0) := by
  intro h
  exact h rfl

/-- CLAIM C5, corrected.  When opening a device for reading is denied due
to insufficient privilege, the process terminates without retrying: it
prints the specific actionable message "Permission denied. Try running
the script with sudo." (no stack trace, since the exception is handled),
but it exits with status 0, not a non-zero code. -/
theorem permission_error_behavior :
    script_run .permissionError
      = ⟨["Permission denied. Try running the script with sudo."], 0, false⟩
    ∧ (script_run .permissionError).exitCode = 0 := by
  exact ⟨rfl, rfl⟩

/-! ## Decimal rendering and parsing of counts

`save_data` writes each count with Python `str(int)`; `load_existing_data`
parses the second CSV field with `int(...)`.  We model `str` on integers
(optional minus sign, then decimal digits) and `int` on strings (optional
sign, then decimal digits; a non-numeric string is a `ValueError`, i.e.
`none`).  Python `int` additionally tolerates surrounding whitespace and
grouping underscores, which never occur in files this program writes. -/

/-- Decimal digit character for a value below 10. -/
def digitChar (d : Nat) : Char := Char.ofNat (48 + d)

/-- Decimal digits of a natural number, most significant first. -/
def natDigits (n : Nat) : List Char :=
  if h : n < 10 then [digitChar n]
  else natDigits (n / 10) ++ [digitChar (n % 10)]
termination_by n
decreasing_by exact Nat.div_lt_self (by omega) (by omega)

/-- Python `str` on an integer. -/
def intRepr (i : Int) : String :=
  if i < 0 then String.mk ('-' :: natDigits i.natAbs) else String.mk (natDigits i.natAbs)

/-- Numeric value of a decimal digit character, if it is one. -/
def digitVal (c : Char) : Option Nat :=
  if 48 ≤ c.toNat ∧ c.toNat ≤ 57 then some (c.toNat - 48) else none

/-- Accumulate decimal digits; any non-digit makes the parse fail. -/
def parseDigitsAux (cs : List Char) (acc : Nat) : Option Nat :=
  match cs with
  | [] => some acc
  | c :: rest =>
    match digitVal c with
    | none => none
    | some d => parseDigitsAux rest (acc * 10 + d)

/-- Parse a nonempty all-digit string. -/
def parseNatChars (cs : List Char) : Option Nat :=
  match cs with
  | [] => none
  | _ :: _ => parseDigitsAux cs 0

/-- Python `int(s)` on the strings relevant here: an optional sign
followed by one or more decimal digits; everything else raises
`ValueError` (modelled as `none`). -/
def parseIntStr (s : String) : Option Int :=
  match s.data with
  | [] => none
  | c :: rest =>
    if c = '-' then (parseNatChars rest).map (fun n => -(n : Int))
    else if c = '+' then (parseNatChars rest).map (fun n => (n : Int))
    else (parseNatChars (c :: rest)).map (fun n => (n : Int))

theorem digitVal_digitChar (d : Nat) (h : d < 10) : digitVal (digitChar d) = some d := by
  interval_cases d <;> decide

theorem digitChar_toNat (d : Nat) (h : d < 10) : (digitChar d).toNat = 48 + d := by
  interval_cases d <;> decide

theorem natDigits_ne_nil (n : Nat) : natDigits n ≠ [] := by
  rw [natDigits]
  by_cases h : n < 10 <;> simp [h]

theorem natDigits_digits (n : Nat) : ∀ c ∈ natDigits n, 48 ≤ c.toNat ∧ c.toNat ≤ 57 := by
  induction n using Nat.strong_induction_on with
  | _ n ih =>
    rw [natDigits]
    by_cases h : n < 10
    · simp only [h, dite_true, List.mem_singleton]
      rintro c rfl
      rw [digitChar_toNat n h]
      omega
    · simp only [h, dite_false, List.mem_append, List.mem_singleton]
      rintro c (hc | rfl)
      · exact ih (n / 10) (Nat.div_lt_self (by omega) (by omega)) c hc
      · rw [digitChar_toNat (n % 10) (Nat.mod_lt n (by omega))]
        omega

theorem parseDigitsAux_append (xs ys : List Char) (acc : Nat) :
    parseDigitsAux (xs ++ ys) acc
      = match parseDigitsAux xs acc with
        | none => none
        | some v => parseDigitsAux ys v := by
  induction xs generalizing acc with
  | nil => simp [parseDigitsAux]
  | cons c rest ih =>
    simp only [List.cons_append, parseDigitsAux]
    cases digitVal c with
    | none => rfl
    | some d => exact ih (acc * 10 + d)

theorem parseDigitsAux_natDigits (n : Nat) :
    ∀ acc, parseDigitsAux (natDigits n) acc
      = some (acc * 10 ^ (natDigits n).length + n) := by
  induction n using Nat.strong_induction_on with
  | _ n ih =>
    intro acc
    rw [natDigits]
    by_cases h : n < 10
    · simp only [h, dite_true]
      simp [parseDigitsAux, digitVal_digitChar n h]
    · simp only [h, dite_false]
      rw [parseDigitsAux_append]
      rw [ih (n / 10) (Nat.div_lt_self (by omega) (by omega)) acc]
      simp only [parseDigitsAux, digitVal_digitChar (n % 10) (Nat.mod_lt n (by omega))]
      simp only [List.length_append, List.length_singleton]
      congr 1
      rw [pow_succ]
      have := Nat.div_add_mod n 10
      ring_nf
      omega

theorem parseNatChars_natDigits (n : Nat) : parseNatChars (natDigits n) = some n := by
  have hne := natDigits_ne_nil n
  have hparse := parseDigitsAux_natDigits n 0
  cases he : natDigits n with
  | nil => exact absurd he hne
  | cons c rest =>
    simp only [parseNatChars]
    rw [← he, hparse]
    simp

theorem parseIntStr_neg_mk (cs : List Char) :
    parseIntStr (String.mk ('-' :: cs)) = (parseNatChars cs).map (fun n => -(n : Int)) := by
  rfl

theorem parseIntStr_nonsign_mk (c : Char) (cs : List Char)
    (h1 : ¬ c = '-') (h2 : ¬ c = '+') :
    parseIntStr (String.mk (c :: cs)) = (parseNatChars (c :: cs)).map (fun n => (n : Int)) := by
  unfold parseIntStr
  simp [h1, h2]

theorem parseIntStr_intRepr (i : Int) : parseIntStr (intRepr i) = some i := by
  unfold intRepr
  by_cases h : i < 0
  · simp only [h, if_true]
    rw [parseIntStr_neg_mk, parseNatChars_natDigits]
    have habs : ((i.natAbs : Int)) = -i := Int.ofNat_natAbs_of_nonpos (le_of_lt h)
    simp [habs]
  · simp only [h, if_false]
    cases he : natDigits i.natAbs with
    | nil => exact absurd he (natDigits_ne_nil _)
    | cons c rest =>
      have hc : 48 ≤ c.toNat ∧ c.toNat ≤ 57 := by
        apply natDigits_digits i.natAbs
        rw [he]; exact List.mem_cons_self c rest
      have hminus : ¬ c = '-' := by
        intro hcm; subst hcm; exact absurd hc (by decide)
      have hplus : ¬ c = '+' := by
        intro hcm; subst hcm; exact absurd hc (by decide)
      rw [parseIntStr_nonsign_mk c rest hminus hplus, ← he, parseNatChars_natDigits]
      have habs : ((i.natAbs : Int)) = i := Int.natAbs_of_nonneg (by omega)
      simp [habs]

/-! ## The CSV encoding

`save_data` writes rows with `csv.writer` (excel dialect: fields joined
by commas, rows terminated by CRLF, a field containing a comma, quote or
line break is wrapped in double quotes with inner quotes doubled — the
file is opened with `newline=''` so the CRLF reaches the file verbatim).
`load_existing_data` reads rows back with `csv.reader`, which accepts
both CRLF and LF row endings and yields one list of field strings per
line (an empty line yields the empty row). -/

/-- Characters that force `csv.writer` (QUOTE_MINIMAL) to quote a field. -/
def isCsvSpecial (c : Char) : Bool :=
  c = ',' || c = '"' || c = '\r' || c = '\n'

/-- Double every inner quote of a quoted field. -/
def csvEscape (cs : List Char) : List Char :=
  match cs with
  | [] => []
  | c :: rest => if c = '"' then '"' :: '"' :: csvEscape rest else c :: csvEscape rest

/-- Render one field as `csv.writer` does: verbatim, or quoted when it
contains a special character. -/
def csvField (s : String) : List Char :=
  if s.data.any isCsvSpecial then '"' :: (csvEscape s.data ++ ['"']) else s.data

/-- One `writer.writerow([key, count])` call: two fields, a comma, CRLF. -/
def writeRowChars (key : String) (count : Int) : List Char :=
  csvField key ++ ',' :: (csvField (intRepr count) ++ ['\r', '\n'])

/-- The file content written by the `for key, count in key_counter.items()`
loop of `save_data`. -/
def serializeTableChars (t : CounterTable) : List Char :=
  match t with
  | [] => []
  | p :: rest => writeRowChars p.1 p.2 ++ serializeTableChars rest

/-- Full serialized file for a counter table. -/
def serializeTable (t : CounterTable) : String :=
  String.mk (serializeTableChars t)

/-- Close the current row when a line ends: an entirely blank line is the
empty row, otherwise the pending field is appended.  `fld` holds the
current field reversed, `row` the completed fields reversed. -/
def endRow (fld : List Char) (row : List String) : List String :=
  if fld.isEmpty && row.isEmpty then [] else (String.mk fld.reverse :: row).reverse

/-- Character-level model of `csv.reader` (excel dialect): fields split
on commas, rows split on LF, CRLF or CR, double quotes delimit quoted
fields with doubled inner quotes. -/
def csvParseAux (cs : List Char) (inQ : Bool) (fld : List Char) (row : List String) :
    List (List String) :=
  match cs with
  | [] => if fld.isEmpty && row.isEmpty then [] else [endRow fld row]
  | c :: rest =>
    if inQ then
      if c = '"' then
        if rest.head? = some '"' then csvParseAux rest.tail true ('"' :: fld) row
        else csvParseAux rest false fld row
      else csvParseAux rest true (c :: fld) row
    else
      if c = '"' then csvParseAux rest true fld row
      else if c = ',' then csvParseAux rest false [] (String.mk fld.reverse :: row)
      else if c = '\n' then endRow fld row :: csvParseAux rest false [] []
      else if c = '\r' then
        if rest.head? = some '\n' then endRow fld row :: csvParseAux rest.tail false [] []
        else endRow fld row :: csvParseAux rest false [] []
      else csvParseAux rest false (c :: fld) row
termination_by cs.length
decreasing_by
  all_goals simp_wf
  all_goals omega

/-- Rows of a CSV file, as `csv.reader` yields them. -/
def parseCsv (s : String) : List (List String) :=
  csvParseAux s.data false [] []

theorem csvParseAux_nil (inQ : Bool) (fld : List Char) (row : List String) :
    csvParseAux [] inQ fld row
      = if fld.isEmpty && row.isEmpty then [] else [endRow fld row] := by
  rw [csvParseAux]

theorem csvParseAux_plain_cons (x : Char) (hx : isCsvSpecial x = false)
    (rest fld : List Char) (row : List String) :
    csvParseAux (x :: rest) false fld row = csvParseAux rest false (x :: fld) row := by
  have hq : ¬ x = '"' := by
    intro h; rw [h] at hx; simp [isCsvSpecial] at hx
  have hcm : ¬ x = ',' := by
    intro h; rw [h] at hx; simp [isCsvSpecial] at hx
  have hnl : ¬ x = '\n' := by
    intro h; rw [h] at hx; simp [isCsvSpecial] at hx
  have hcr : ¬ x = '\r' := by
    intro h; rw [h] at hx; simp [isCsvSpecial] at hx
  rw [csvParseAux]
  simp [hq, hcm, hnl, hcr]

theorem csvParseAux_comma (rest fld : List Char) (row : List String) :
    csvParseAux (',' :: rest) false fld row
      = csvParseAux rest false [] (String.mk fld.reverse :: row) := by
  rw [csvParseAux]
  simp

theorem csvParseAux_crlf (rest fld : List Char) (row : List String) :
    csvParseAux ('\r' :: '\n' :: rest) false fld row
      = endRow fld row :: csvParseAux rest false [] [] := by
  rw [csvParseAux]
  simp

theorem csvParseAux_plain_field (xs : List Char) (hplain : ∀ c ∈ xs, isCsvSpecial c = false) :
    ∀ rest fld row, csvParseAux (xs ++ rest) false fld row
      = csvParseAux rest false (xs.reverse ++ fld) row := by
  induction xs with
  | nil => intro rest fld row; rfl
  | cons x tail ih =>
    intro rest fld row
    have hx : isCsvSpecial x = false := hplain x (List.mem_cons_self x tail)
    have htail : ∀ c ∈ tail, isCsvSpecial c = false :=
      fun c hc => hplain c (List.mem_cons_of_mem x hc)
    rw [List.cons_append, csvParseAux_plain_cons x hx, ih htail rest (x :: fld) row]
    simp

theorem csvParseAux_plain_row (kcs dcs : List Char) (rest : List Char)
    (hk : ∀ c ∈ kcs, isCsvSpecial c = false) (hd : ∀ c ∈ dcs, isCsvSpecial c = false) :
    csvParseAux (kcs ++ ',' :: (dcs ++ ['\r', '\n']) ++ rest) false [] []
      = [String.mk kcs, String.mk dcs] :: csvParseAux rest false [] [] := by
  rw [show kcs ++ ',' :: (dcs ++ ['\r', '\n']) ++ rest
      = kcs ++ (',' :: (dcs ++ ('\r' :: '\n' :: rest))) by simp]
  rw [csvParseAux_plain_field kcs hk, csvParseAux_comma,
    csvParseAux_plain_field dcs hd, csvParseAux_crlf]
  unfold endRow
  simp

/-! ## The file system and the persistence store

`save_data` calls `os.makedirs(os.path.dirname(csv_file), exist_ok=True)`
and then rewrites the file from scratch (`open(..., 'w')` truncates).
`load_existing_data` checks `os.path.exists` and otherwise leaves the
global counter untouched.  We model the file system as a list of existing
directories and a map from path to file content. -/

/-- Abstract file system state: existing directories and files. -/
structure FS where
  dirs : List String
  files : List (String × String)
deriving Repr

/-- Content of the file at `path`, if it exists. -/
def lookupFile (fs : FS) (path : String) : Option String :=
  match fs.files.find? (fun p => p.1 == path) with
  | some p => some p.2
  | none => none

/-- Write `content` at `path`, truncating any previous content
(`open(path, 'w')` semantics). -/
def setFile (files : List (String × String)) (path content : String) :
    List (String × String) :=
  match files with
  | [] => [(path, content)]
  | p :: rest => if p.1 = path then (path, content) :: rest else p :: setFile rest path content

/-- Prefix of `cs` up to and including its last slash; empty if none
(the `p[:i]` part of `posixpath.dirname`). -/
def headPart (cs : List Char) : List Char :=
  match cs with
  | [] => []
  | c :: rest =>
    if '/' ∈ rest then c :: headPart rest
    else if c = '/' then [c]
    else []

/-- Python `os.path.dirname` (POSIX): the part before the last slash,
stripped of trailing slashes unless it consists only of slashes. -/
def dirname (s : String) : String :=
  if (headPart s.data).all (fun c => c = '/') then String.mk (headPart s.data)
  else String.mk ((headPart s.data).reverse.dropWhile (fun c => c = '/')).reverse

/-- The directory and its ancestor chain created by `os.makedirs`. -/
def ancestorDirs (d : String) : List String :=
  d :: (List.range (d.splitOn "/").length).map
    (fun i => String.intercalate "/" ((d.splitOn "/").take (i + 1)))

/-- Models `os.makedirs(d, exist_ok=True)`: creates `d` and any missing
ancestors.  CPython's `mkdir("")` raises `FileNotFoundError` even with
`exist_ok=True` (and `isdir("") ` is false), so the empty path — the
`dirname` of a bare file name — is an error. -/
def makedirs (fs : FS) (d : String) : Except Unit FS :=
  if d = "" then .error ()
  else .ok { fs with dirs := ancestorDirs d ++ fs.dirs }

/-- Source `save_data(csv_file)`: `makedirs` on the dirname, then write
every `(key, count)` row of the counter table to the file from scratch. -/
def save_data (csv_file : String) (t : CounterTable) (fs : FS) : Except Unit FS :=
  match makedirs fs (dirname csv_file) with
  | .error e => .error e
  | .ok fs2 => .ok { fs2 with files := setFile fs2.files csv_file (serializeTable t) }

/-- Body of the reader loop of `load_existing_data`:
`if len(row) == 2: key_counter[row[0]] = int(row[1])`.  A row of any
other length is skipped; a second field that is not an integer raises
`ValueError` (modelled as `.error`). -/
def processRow (t : CounterTable) (row : List String) : Except Unit CounterTable :=
  match row with
  | [k, v] =>
    match parseIntStr v with
    | some n => .ok (ctSet t k n)
    | none => .error ()
  | _ => .ok t

/-- The `for row in reader` loop of `load_existing_data`. -/
def loadRows (rows : List (List String)) (t : CounterTable) : Except Unit CounterTable :=
  match rows with
  | [] => .ok t
  | row :: rest =>
    match processRow t row with
    | .error e => .error e
    | .ok t2 => loadRows rest t2

/-- Source `load_existing_data(csv_file)`: if the file does not exist the
counter table is left untouched; otherwise its CSV rows are read into it. -/
def load_existing_data (csv_file : String) (fs : FS) (t : CounterTable) :
    Except Unit CounterTable :=
  match lookupFile fs csv_file with
  | none => .ok t
  | some content => loadRows (parseCsv content) t

theorem not_special_of_digit (c : Char) (hc : 48 ≤ c.toNat ∧ c.toNat ≤ 57) :
    isCsvSpecial c = false := by
  unfold isCsvSpecial
  have h1 : ¬ c = ',' := by rintro rfl; exact absurd hc (by decide)
  have h2 : ¬ c = '"' := by rintro rfl; exact absurd hc (by decide)
  have h3 : ¬ c = '\r' := by rintro rfl; exact absurd hc (by decide)
  have h4 : ¬ c = '\n' := by rintro rfl; exact absurd hc (by decide)
  simp [h1, h2, h3, h4]

theorem intRepr_plain (i : Int) : ∀ c ∈ (intRepr i).data, isCsvSpecial c = false := by
  unfold intRepr
  by_cases h : i < 0
  · simp only [h, if_true]
    intro c hc
    rcases List.mem_cons.mp hc with rfl | hc2
    · decide
    · exact not_special_of_digit c (natDigits_digits _ c hc2)
  · simp only [h, if_false]
    intro c hc
    exact not_special_of_digit c (natDigits_digits _ c hc)

theorem csvField_plain (s : String) (hplain : ∀ c ∈ s.data, isCsvSpecial c = false) :
    csvField s = s.data := by
  unfold csvField
  have hany : s.data.any isCsvSpecial = false := by
    rw [List.any_eq_false]
    intro c hc
    simp [hplain c hc]
  rw [hany]
  simp

theorem parseCsv_serializeTable (t : CounterTable)
    (hplain : ∀ p ∈ t, ∀ c ∈ (p.1 : String).data, isCsvSpecial c = false) :
    parseCsv (serializeTable t) = t.map (fun p => [p.1, intRepr p.2]) := by
  show csvParseAux (serializeTableChars t) false [] [] = _
  induction t with
  | nil =>
    rw [show serializeTableChars [] = [] from rfl, csvParseAux_nil]
    rfl
  | cons p rest ih =>
    have hkey : ∀ c ∈ (p.1 : String).data, isCsvSpecial c = false :=
      hplain p (List.mem_cons_self p rest)
    have htail : ∀ q ∈ rest, ∀ c ∈ (q.1 : String).data, isCsvSpecial c = false :=
      fun q hq => hplain q (List.mem_cons_of_mem p hq)
    have hcnt : ∀ c ∈ (intRepr p.2).data, isCsvSpecial c = false := intRepr_plain p.2
    show csvParseAux (writeRowChars p.1 p.2 ++ serializeTableChars rest) false [] [] = _
    rw [show writeRowChars p.1 p.2 ++ serializeTableChars rest
        = csvField p.1 ++ ',' :: (csvField (intRepr p.2) ++ ['\r', '\n'])
            ++ serializeTableChars rest by simp [writeRowChars]]
    rw [csvField_plain p.1 hkey, csvField_plain (intRepr p.2) hcnt]
    rw [csvParseAux_plain_row p.1.data (intRepr p.2).data (serializeTableChars rest) hkey hcnt]
    rw [ih htail]
    rfl

theorem lookupFile_setFile (dirs : List String) (files : List (String × String))
    (path content : String) :
    lookupFile ⟨dirs, setFile files path content⟩ path = some content := by
  unfold lookupFile
  show (match (setFile files path content).find? (fun p => p.1 == path) with
        | some p => some p.2 | none => none) = some content
  induction files with
  | nil => simp [setFile]
  | cons p rest ih =>
    by_cases h : p.1 = path
    · simp [setFile, h]
    · have hb : (p.1 == path) = false := beq_false_of_ne h
      simp only [setFile, h, if_false, List.find?_cons, hb]
      exact ih

theorem ctSet_append (acc : CounterTable) (k : String) (v : Int)
    (h : ∀ q ∈ acc, q.1 ≠ k) : ctSet acc k v = acc ++ [(k, v)] := by
  induction acc with
  | nil => rfl
  | cons p rest ih =>
    have hp : p.1 ≠ k := h p (List.mem_cons_self p rest)
    simp only [ctSet, hp, if_false, List.cons_append]
    rw [ih (fun q hq => h q (List.mem_cons_of_mem p hq))]

theorem foldl_ctSet (t : CounterTable) :
    ∀ acc : CounterTable, (t.map Prod.fst).Nodup →
      (∀ p ∈ t, ∀ q ∈ acc, q.1 ≠ p.1) →
      t.foldl (fun a p => ctSet a p.1 p.2) acc = acc ++ t := by
  induction t with
  | nil => intro acc _ _; simp
  | cons p rest ih =>
    intro acc hnodup hdisj
    have hnotin : p.1 ∉ rest.map Prod.fst := by
      simp only [List.map_cons, List.nodup_cons] at hnodup
      exact hnodup.1
    have hnd : (rest.map Prod.fst).Nodup := by
      simp only [List.map_cons, List.nodup_cons] at hnodup
      exact hnodup.2
    simp only [List.foldl_cons]
    rw [ctSet_append acc p.1 p.2 (fun q hq => hdisj p (List.mem_cons_self p rest) q hq)]
    rw [ih (acc ++ [(p.1, p.2)]) hnd ?_]
    · simp
    · intro r hr q hq
      rcases List.mem_append.mp hq with hq | hq
      · exact hdisj r (List.mem_cons_of_mem p hr) q hq
      · rcases List.mem_singleton.mp hq with rfl
        intro he
        exact hnotin (he ▸ List.mem_map_of_mem Prod.fst hr)

theorem loadRows_serialized (t : CounterTable) :
    ∀ acc : CounterTable,
      loadRows (t.map (fun p => [p.1, intRepr p.2])) acc
        = .ok (t.foldl (fun a p => ctSet a p.1 p.2) acc) := by
  induction t with
  | nil => intro acc; rfl
  | cons p rest ih =>
    intro acc
    simp only [List.map_cons, loadRows, processRow, parseIntStr_intRepr, List.foldl_cons]
    exact ih (ctSet acc p.1 p.2)

/-- CLAIM C2.  Saving a counter table with `save_data` and loading the
resulting file back with `load_existing_data` into an empty table
restores exactly the same table — same key-set, same integer count for
every key, no loss of precision.  The hypotheses delimit the tables this
system produces: the path has a directory component (otherwise
`save_data` itself fails, see C8), keys contain no CSV-special character
(keys are `str(code)` results — digits or key names — so this always
holds), and keys are unique (guaranteed for any `Counter`). -/
theorem save_load_round_trip (path : String) (t : CounterTable) (fs : FS)
    (hdir : ¬ dirname path = "")
    (hplain : ∀ p ∈ t, ∀ c ∈ (p.1 : String).data, isCsvSpecial c = false)
    (hnodup : (t.map Prod.fst).Nodup) :
    ∃ fs2 : FS, save_data path t fs = .ok fs2
      ∧ load_existing_data path fs2 [] = .ok t := by
  refine ⟨⟨ancestorDirs (dirname path) ++ fs.dirs,
    setFile fs.files path (serializeTable t)⟩, ?_, ?_⟩
  · unfold save_data makedirs
    rw [if_neg hdir]
  · unfold load_existing_data
    rw [lookupFile_setFile]
    show loadRows (parseCsv (serializeTable t)) [] = .ok t
    rw [parseCsv_serializeTable t hplain]
    rw [loadRows_serialized]
    rw [foldl_ctSet t [] hnodup (by intro p _ q hq; exact absurd hq (List.not_mem_nil q))]
    rfl

/-- Witness for C2: round trip of both the empty table and a concrete
two-key table through an actual `save_data` / `load_existing_data` pair. -/
theorem save_load_round_trip_witness :
    (∃ fs2 : FS, save_data "data/stats.csv" [] ⟨[], []⟩ = .ok fs2
      ∧ load_existing_data "data/stats.csv" fs2 [] = .ok [])
    ∧ (∃ fs2 : FS, save_data "data/stats.csv" [("30", 5), ("KEY_A", 2)] ⟨[], []⟩ = .ok fs2
      ∧ load_existing_data "data/stats.csv" fs2 [] = .ok [("30", 5), ("KEY_A", 2)]) :=
  ⟨save_load_round_trip "data/stats.csv" [] ⟨[], []⟩ (by decide) (by decide) (by decide),
   save_load_round_trip "data/stats.csv" [("30", 5), ("KEY_A", 2)] ⟨[], []⟩
     (by decide) (by decide) (by decide)⟩

/-- CLAIM C8, corrected.  For every path whose directory component is
nonempty, `save_data` creates the missing parent directories and then
rewrites the file from scratch: afterwards the file content is exactly
the serialization of the in-memory table, regardless of prior content
(overwrite, not append or merge).  The correction: for a path with no
directory component at all (a bare file name), `os.makedirs("")` raises
`FileNotFoundError` even with `exist_ok=True`, so `save_data` fails
before writing anything — the claim does not hold for every path. -/
theorem save_creates_dirs_and_overwrites (path : String) (t : CounterTable) (fs : FS)
    (hdir : ¬ dirname path = "") :
    ∃ fs2 : FS, save_data path t fs = .ok fs2
      ∧ (∀ a ∈ ancestorDirs (dirname path), a ∈ fs2.dirs)
      ∧ fs2.files = setFile fs.files path (serializeTable t)
      ∧ lookupFile fs2 path = some (serializeTable t) := by
  refine ⟨⟨ancestorDirs (dirname path) ++ fs.dirs,
    setFile fs.files path (serializeTable t)⟩, ?_, ?_, rfl, ?_⟩
  · unfold save_data makedirs
    rw [if_neg hdir]
  · intro a ha
    exact List.mem_append_left _ ha
  · exact lookupFile_setFile _ _ _ _

/-- Counterexample to C8 as stated.  At the bare file name "stats.csv"
(a legitimate command-line argument), the directory component is empty
and `save_data` raises instead of writing the table. -/
theorem save_data_counterexample :
    dirname "stats.csv" = ""
    ∧ save_data "stats.csv" [("30", 5)] ⟨[], []⟩ = .error () := by
  constructor
  · decide
  · rw [show save_data "stats.csv" [("30", 5)] ⟨[], []⟩
        = match makedirs ⟨[], []⟩ (dirname "stats.csv") with
          | .error e => .error e
          | .ok fs2 => .ok { fs2 with
              files := setFile fs2.files "stats.csv" (serializeTable [("30", 5)]) }
        from rfl]
    rw [show makedirs ⟨[], []⟩ (dirname "stats.csv") = .error () by
      unfold makedirs
      rw [if_pos (by decide)]]

/-- Witness for C8 (corrected form): a path with a directory component,
saved over a file system that already holds stale content at that path. -/
theorem save_creates_dirs_and_overwrites_witness :
    ∃ fs2 : FS, save_data "data/stats.csv" [("30", 5)] ⟨[], [("data/stats.csv", "old")]⟩ = .ok fs2
      ∧ (∀ a ∈ ancestorDirs (dirname "data/stats.csv"), a ∈ fs2.dirs)
      ∧ fs2.files = setFile [("data/stats.csv", "old")] "data/stats.csv"
          (serializeTable [("30", 5)])
      ∧ lookupFile fs2 "data/stats.csv" = some (serializeTable [("30", 5)]) :=
  save_creates_dirs_and_overwrites "data/stats.csv" [("30", 5)]
    ⟨[], [("data/stats.csv", "old")]⟩ (by decide)

/-- CLAIM C9.  When no file exists at the path, `load_existing_data`
leaves the counter table empty and raises no error; when the file
exists, its CSV records are read into the table. -/
theorem load_missing_file (path : String) (fs : FS) (content : String) :
    (lookupFile fs path = none → load_existing_data path fs [] = .ok [])
    ∧ (lookupFile fs path = some content →
        load_existing_data path fs [] = loadRows (parseCsv content) []) := by
  constructor
  · intro h
    unfold load_existing_data
    rw [h]
  · intro h
    unfold load_existing_data
    rw [h]

/-- Witness for C9: a missing file on an empty file system loads as the
empty table without error, and an existing "30,5" file loads its record. -/
theorem load_missing_file_witness :
    load_existing_data "stats.csv" ⟨[], []⟩ [] = .ok []
    ∧ load_existing_data "a.csv" ⟨[], [("a.csv", "30,5\r\n")]⟩ [] = .ok [("30", 5)] := by
  constructor
  · exact (load_missing_file "stats.csv" ⟨[], []⟩ "").1 (by decide)
  · rw [(load_missing_file "a.csv" ⟨[], [("a.csv", "30,5\r\n")]⟩ "30,5\r\n").2 (by decide)]
    have hp : parseCsv "30,5\r\n" = [["30", "5"]] := by
      show csvParseAux ("30,5\r\n".data) false [] [] = _
      rw [show ("30,5\r\n".data) = ['3', '0'] ++ ',' :: (['5'] ++ ['\r', '\n']) ++ [] by decide]
      rw [csvParseAux_plain_row ['3', '0'] ['5'] [] (by decide) (by decide), csvParseAux_nil]
      decide
    rw [hp]
    rfl

/-- CLAIM C10.  The reader loop of `load_existing_data` silently ignores
every row that does not have exactly two fields (no entry, no error, so
loading a file equals loading just its two-field rows), while every
two-field row whose second field parses as a decimal integer sets that
key's count in the table. -/
theorem load_ignores_malformed_rows (rows : List (List String)) (t : CounterTable) :
    loadRows rows t = loadRows (rows.filter (fun r => r.length == 2)) t
    ∧ (∀ r : List String, r.length ≠ 2 → processRow t r = .ok t)
    ∧ (∀ k s : String, ∀ n : Int, parseIntStr s = some n →
        processRow t [k, s] = .ok (ctSet t k n)) := by
  refine ⟨?_, ?_, ?_⟩
  · induction rows generalizing t with
    | nil => rfl
    | cons row rest ih =>
      match row with
      | [] => simpa [loadRows, processRow] using ih t
      | [a] => simpa [loadRows, processRow] using ih t
      | [a, b] =>
        simp only [List.filter_cons, List.length_cons, List.length_nil, Nat.reduceBEq,
          if_true, loadRows]
        cases h : processRow t [a, b] with
        | error e => rfl
        | ok t2 => exact ih t2
      | a :: b :: c :: tail =>
        have hlen : ((a :: b :: c :: tail).length == 2) = false := by
          simp [List.length_cons]
        simp only [loadRows, processRow, List.filter_cons, hlen, if_false]
        exact ih t
  · intro r hr
    match r with
    | [] => rfl
    | [a] => rfl
    | [a, b] => exact absurd rfl hr
    | a :: b :: c :: tail => rfl
  · intro k s n hp
    simp [processRow, hp]

/-- Witness for C10: a file whose rows are an empty row, a one-field row,
a well-formed record and a three-field row loads exactly the well-formed
record; the step facts instantiated at concrete rows. -/
theorem load_ignores_malformed_rows_witness :
    loadRows [[], ["x"], ["30", "5"], ["a", "b", "c"]] []
      = loadRows [["30", "5"]] []
    ∧ processRow [] ["a", "b", "c"] = .ok []
    ∧ processRow [] ["30", "5"] = .ok (ctSet [] "30" 5) := by
  have h := load_ignores_malformed_rows [[], ["x"], ["30", "5"], ["a", "b", "c"]] []
  refine ⟨?_, h.2.1 ["a", "b", "c"] (by decide), h.2.2 "30" "5" 5 (by decide)⟩
  have h1 := h.1
  rw [show ([[], ["x"], ["30", "5"], ["a", "b", "c"]].filter (fun r => r.length == 2))
      = [["30", "5"]] by decide] at h1
  exact h1

end KeyboardStats
